import Mathlib

/-!
Verification of the plan-trace parser (src/OutputParser.py) and the
initial-state patcher (src/PDDLPatcher.py) of the OpenRaving repository.

Strings are modelled as lists of characters (`PyStr`).  The Python string
operations the source uses -- `split`, `strip`, `replace`, `lower`, the
regular-expression match against `\(.*\)\Z`, and list indexing with negative
wrap-around -- are given executable models with Python's semantics (the
`lower` model covers the ASCII range, which is the planner-output alphabet).
`State` objects (Python sets of proposition strings) are modelled as
insertion-ordered duplicate-free lists.  The external collaborators
(`State.makeCWAExplicit`, `InitFileMgr`) are not part of src/: the patcher is
therefore modelled as the sequence of manager operations it issues, and the
manager semantics needed by one claim is modelled from the specification.
-/

abbrev PyStr := List Char

/-- The character list of a string literal. -/
def chars (s : String) : PyStr := s.toList

/-- The whitespace characters removed by Python str.strip(). -/
def isPySpace (c : Char) : Bool :=
  c == ' ' || c == '\t' || c == '\n' || c == '\r' || c == '\x0B' || c == '\x0C'

/-- Python str.strip(): remove leading and trailing whitespace. -/
def pyStrip (s : PyStr) : PyStr :=
  ((s.dropWhile isPySpace).reverse.dropWhile isPySpace).reverse

/-- Python str.replace(a, b) for one-character pattern and replacement. -/
def replChar (a b : Char) (s : PyStr) : PyStr :=
  s.map (fun c => if c = a then b else c)

/-- The upper-to-lower table of Python str.lower() on the ASCII range (the
alphabet of planner output). -/
def lowerTable : List (Char × Char) :=
  [('A', 'a'), ('B', 'b'), ('C', 'c'), ('D', 'd'), ('E', 'e'), ('F', 'f'),
   ('G', 'g'), ('H', 'h'), ('I', 'i'), ('J', 'j'), ('K', 'k'), ('L', 'l'),
   ('M', 'm'), ('N', 'n'), ('O', 'o'), ('P', 'p'), ('Q', 'q'), ('R', 'r'),
   ('S', 's'), ('T', 't'), ('U', 'u'), ('V', 'v'), ('W', 'w'), ('X', 'x'),
   ('Y', 'y'), ('Z', 'z')]

/-- Python str.lower() on one character. -/
def lowerChar (c : Char) : Char := (lowerTable.lookup c).getD c

/-- Python str.lower() over a string. -/
def asciiLower (s : PyStr) : PyStr := s.map lowerChar

/-- Python str.find(sep) as an option: the position of the first occurrence of
`sep` in `s`, scanning left to right. -/
def pyFind (sep : PyStr) : PyStr → Option Nat
  | [] => none
  | c :: rest =>
    if sep.isPrefixOf (c :: rest) then some 0
    else (pyFind sep rest).map (fun n => n + 1)

/-- Fuel-indexed worker for `pySplit`; the fuel is always at least the length
of the string, which bounds the number of separator occurrences. -/
def splitAux (sep : PyStr) : Nat → PyStr → List PyStr
  | 0, s => [s]
  | fuel + 1, s =>
    match pyFind sep s with
    | none => [s]
    | some i => s.take i :: splitAux sep fuel (s.drop (i + sep.length))

/-- Python str.split(sep) for a non-empty separator: pieces between
non-overlapping occurrences of `sep`, scanned left to right. -/
def pySplit (sep s : PyStr) : List PyStr := splitAux sep s.length s

/-- The text before the first occurrence of `sep` (all of `s` when absent). -/
def untilFirst (sep s : PyStr) : PyStr :=
  match pyFind sep s with
  | none => s
  | some i => s.take i

/-- Python str.replace(pat, repl) for a non-empty pattern: Python's replace
and split use the same left-to-right non-overlapping scan. -/
def pyReplace (pat repl s : PyStr) : PyStr := List.intercalate repl (pySplit pat s)

/-- Python list indexing `l[i]`: non-negative indices are direct, negative
indices wrap around once, anything else raises IndexError (`none`). -/
def pyListGet (l : List α) (i : Int) : Option α :=
  if 0 ≤ i then l[i.toNat]?
  else if 0 ≤ i + l.length then l[(i + (l.length : Int)).toNat]?
  else none

/-- Module-level delimiter `stateListDelimiter = "*** States ***"` of
OutputParser.py. -/
def stateListDelimiter : PyStr := chars ("*** States ***")

/-- Module-level delimiter `stateDelimiter = "State"` of OutputParser.py. -/
def stateDelimiter : PyStr := chars ("State")

/-- The regular expression `\(.*\)\Z` used through `propPattern.match`:
anchored at the start, `.*` matches anything but a newline, `\Z` anchors the
closing parenthesis at the end of the string.  A string matches exactly when
it starts with `(`, ends with `)`, has length at least 2, and has no newline
in between. -/
def propMatch (s : PyStr) : Bool :=
  match s with
  | [] => false
  | c :: rest => c == '(' && rest.getLast? == some ')' && !(rest.dropLast.contains '\n')

/-- Python set insertion (State.addProposition) on an insertion-ordered,
duplicate-free list model of a set of proposition strings. -/
def addProp (props : List PyStr) (p : PyStr) : List PyStr :=
  if p ∈ props then props else props ++ [p]

/-- The normalisation pipeline applied to one raw line by
OutputParser.getStateFromStr before re-wrapping: strip, replace `(` by a
space, replace `)` by a space, lower-case, strip again. -/
def normCore (raw : PyStr) : PyStr :=
  pyStrip (asciiLower (replChar ')' ' ' (replChar '(' ' ' (pyStrip raw))))

/-- The normalised proposition string built from one raw line:
`"(" + normCore(raw) + ")"`. -/
def normProp (raw : PyStr) : PyStr := ('(' :: normCore raw) ++ [')']

/-- The body of getStateFromStr's loop for one raw line: skip the empty
proposition `()`, add the line when the pattern matches, and otherwise report
it (modelled as leaving the state unchanged). -/
def addLine (s : List PyStr) (raw : PyStr) : List PyStr :=
  if normProp raw ≠ chars ("()") then
    (if propMatch (normProp raw) then addProp s (normProp raw) else s)
  else s

/-- OutputParser.getStateFromStr: split on newlines and process each line. -/
def getStateFromStr (stateStr : PyStr) : List PyStr :=
  (pySplit (chars ("\n")) stateStr).foldl addLine []

/-- The state-list construction of OutputParser.parseFFOutput: split the
relevant text on `stateDelimiter`, build a state from each piece, and keep
only states of positive size. -/
def parseStates (relevantStr : PyStr) : List (List PyStr) :=
  ((pySplit stateDelimiter relevantStr).map getStateFromStr).filter
    (fun s => decide (0 < s.length))

/-- The Python exceptions the modelled code can raise. -/
inductive PyErr
  | indexError
  | malformedTrace
  | planNotFound
  | nameError
  | attributeError
  deriving DecidableEq

/-- OutputParser.parseFFOutput in its file mode (`self.fname != ""`,
`fileStr == ""`): the file contents are split on `stateListDelimiter` and
element `[1]` of the split is taken -- an uncaught IndexError when the
delimiter is absent. -/
def parseFFOutputFile (fileContents : PyStr) : Except PyErr (List (List PyStr)) :=
  match (pySplit stateListDelimiter fileContents)[1]? with
  | none => .error .indexError
  | some relevantStr => .ok (parseStates relevantStr)

/-- OutputParser.parseFFOutput in its literal-text mode (`self.fname == ""`,
`fileStr != ""`): the literal text is used whole, with no delimiter split.
With both arguments empty the variable `relevantStr` is never assigned and a
NameError is raised. -/
def parseFFOutputStr (fileStr : PyStr) : Except PyErr (List (List PyStr)) :=
  if fileStr = [] then .error .nameError
  else .ok (parseStates fileStr)

/-- Python set union `a | b` on the insertion-ordered list model. -/
def unionProps (a b : List PyStr) : List PyStr := b.foldl addProp a

/-- OutputParser.getPropSet: starts from `self.stateList[0]` (an uncaught
IndexError on an empty state list) and unions every state's proposition set
into the accumulator. -/
def getPropSet (stateList : List (List PyStr)) : Except PyErr (List PyStr) :=
  match stateList with
  | [] => .error .indexError
  | s0 :: _ => .ok (stateList.foldl unionProps s0)

/-- Result of OutputParser.getStateByIndex: a state, the error-sentinel -1,
or an uncaught Python IndexError from the list access. -/
inductive Lookup (α : Type)
  | found : α → Lookup α
  | sentinel : Lookup α
  | crash : Lookup α
  deriving DecidableEq

/-- OutputParser.getStateByIndex: guarded by `len(self.stateList) > index + 1`;
inside the guard the Python list access applies (negative indices wrap around,
an access below `-len` raises IndexError), otherwise the function prints an
error and returns the integer -1. -/
def getStateByIndex (stateList : List (List PyStr)) (index : Int) : Lookup (List PyStr) :=
  if (stateList.length : Int) > index + 1 then
    match pyListGet stateList index with
    | some s => .found s
    | none => .crash
  else .sentinel

/-- The marker located by OutputParser.getFFPlan. -/
def ffPlanMarker : PyStr := chars ("found legal plan as follows")

/-- OutputParser.getFFPlan: element `[1]` of the split on the plan marker (an
uncaught IndexError when the marker is absent), then element `[0]` of the
split on `"time"`, then every occurrence of `"step"` removed. -/
def getFFPlan (fileContents : PyStr) : Except PyErr PyStr :=
  match (pySplit ffPlanMarker fileContents)[1]? with
  | none => .error .indexError
  | some ffPlanStr =>
    .ok (pyReplace (chars ("step")) [] ((pySplit (chars ("time")) ffPlanStr).headD []))

/-- The delta state handed to InitFileMgr.patchInitState by the patcher:
either the state fetched from the trace, completed in place by
`makeCWAExplicit(propSet)` with the global proposition set, or the plain
state built by patchWithProps. -/
inductive Delta
  | cwa (base : List PyStr) (propSet : List PyStr)
  | raw (props : List PyStr)
  deriving DecidableEq

/-- One call the patcher makes on the external InitFileMgr. -/
inductive MgrOp
  | mergeDelta (d : Delta)
  | rollbackTo (n : Int)
  | purgeSymbol (sym : PyStr)
  deriving DecidableEq

/-- PDDLPatcher.patchWithFFOutput: parse the FF output file (the OutputParser
constructor parses in file mode), compute the global proposition set, and
fetch the state at `stateNum`.  When a state is fetched, the code invokes
`makeCWAExplicit(propSet)` on it and merges it into InitState -- the single
merge operation.  When the fetch reports the out-of-range condition, the code
performs no check on the returned value and calls `makeCWAExplicit` on the
integer sentinel -1, an uncaught AttributeError, so `patchInitState` is never
reached; when the Python list access inside getStateByIndex itself fails
(index below -len) that IndexError propagates.  The result is the list of
manager operations actually performed and the uncaught exception, if any,
that interrupted the pipeline. -/
def patchWithFFOutput (ffOutputFileContents : PyStr) (stateNum : Int) :
    List MgrOp × Option PyErr :=
  match parseFFOutputFile ffOutputFileContents with
  | .error e => ([], some e)
  | .ok states =>
    match getPropSet states with
    | .error e => ([], some e)
    | .ok propSet =>
      match getStateByIndex states stateNum with
      | .found deltaState => ([.mergeDelta (.cwa deltaState propSet)], none)
      | .sentinel => ([], some .attributeError)
      | .crash => ([], some .indexError)

/-- PDDLPatcher.patchWithProps: build a fresh State holding exactly the given
facts and merge it into InitState. -/
def patchWithProps (inputFromContinuous : List PyStr) : List MgrOp :=
  [.mergeDelta (.raw (inputFromContinuous.foldl addProp []))]

/-- PDDLPatcher.patchStateNumWithProps: roll InitState back to checkpoint 0,
then patchWithFFOutput, then patchWithProps. -/
def patchStateNumWithProps (stateNum : Int) (ffOutputFileContents : PyStr)
    (factsFromContinuous : List PyStr) : List MgrOp × Option PyErr :=
  match patchWithFFOutput ffOutputFileContents stateNum with
  | (ops, some e) => (MgrOp.rollbackTo 0 :: ops, some e)
  | (ops, none) => (MgrOp.rollbackTo 0 :: ops ++ patchWithProps factsFromContinuous, none)

/-- PDDLPatcher.patchWithNewInterpretation: purge every fact headed by
`symbol`, then patchWithProps. -/
def patchWithNewInterpretation (symbol : PyStr) (factsFromContinuous : List PyStr) :
    List MgrOp :=
  MgrOp.purgeSymbol symbol :: patchWithProps factsFromContinuous

/-- Modelled from the spec: the head symbol of a fact, the first
whitespace-separated token once parentheses are removed (InitFileMgr is not
under src/; section 4.2 speaks of the fact's head symbol). -/
def headSymbol (fact : PyStr) : PyStr :=
  (pyStrip (replChar ')' ' ' (replChar '(' ' ' fact))).takeWhile (fun c => !isPySpace c)

/-- Modelled from the spec: InitFileMgr.purgeFactsWithSymbol removes every
fact currently in InitState whose head symbol equals `symbol` (sections 4.2
and 6; InitFileMgr is not under src/). -/
def purgeFactsWithSymbol (initState : List PyStr) (symbol : PyStr) : List PyStr :=
  initState.filter (fun f => decide (headSymbol f ≠ symbol))

/-- Modelled from the spec: merging a delta of literal facts into InitState
adds exactly those facts (section 4.2, patchFromFacts; InitFileMgr is not
under src/). -/
def mergeFacts (initState : List PyStr) (props : List PyStr) : List PyStr :=
  props.foldl addProp initState

/-- Modelled from the spec: the effect of one manager operation on the fact
set of InitState.  Only the operations claim C8 depends on are interpreted;
the CWA-merge encoding and the checkpoint history belong to the external
manager (sections 4.2 and 6) and are left as the identity here. -/
def applyMgrOp (initState : List PyStr) : MgrOp → List PyStr
  | .purgeSymbol sym => purgeFactsWithSymbol initState sym
  | .mergeDelta (.raw props) => mergeFacts initState props
  | .mergeDelta (.cwa _ _) => initState
  | .rollbackTo _ => initState

/-- The fact set of InitState after patchWithNewInterpretation's manager
calls are executed in order. -/
def runNewInterpretation (initState : List PyStr) (symbol : PyStr)
    (facts : List PyStr) : List PyStr :=
  (patchWithNewInterpretation symbol facts).foldl applyMgrOp initState

/-- Formalisation of the wording of claim C2 for parseTrace: split the source
on the state-list delimiter, parse only the text after the first occurrence,
and fail with MalformedTraceError when the delimiter is absent. -/
def specParseTrace (source : PyStr) : Except PyErr (List (List PyStr)) :=
  match pyFind stateListDelimiter source with
  | none => .error .malformedTrace
  | some i => .ok (parseStates (source.drop (i + stateListDelimiter.length)))

/-- Formalisation of the wording of claim C9 for extractPlanSteps: fail with
PlanNotFoundError when the marker is absent, otherwise yield the text between
the marker and the next `"time"` marker with the token `"step"` stripped. -/
def specGetFFPlan (source : PyStr) : Except PyErr PyStr :=
  match pyFind ffPlanMarker source with
  | none => .error .planNotFound
  | some i =>
    .ok (pyReplace (chars ("step")) []
      (untilFirst (chars ("time")) (source.drop (i + ffPlanMarker.length))))

/-- The newline-terminated lines of one state section of a trace file. -/
def renderLines : List PyStr → PyStr
  | [] => []
  | l :: ls => l ++ '\n' :: renderLines ls

/-- The text of one state section after its `"State"` delimiter. -/
def bodyOf (sec : List PyStr) : PyStr := '\n' :: renderLines sec

/-- The concatenated state sections of a trace file, each opened by the
`"State"` delimiter. -/
def renderSecs : List (List PyStr) → PyStr
  | [] => []
  | sec :: rest => stateDelimiter ++ bodyOf sec ++ renderSecs rest

/-- A well-formed trace file: the state-list delimiter, a newline, then the
state sections. -/
def renderTrace (sections : List (List PyStr)) : PyStr :=
  stateListDelimiter ++ '\n' :: renderSecs sections

/-- The state a section's lines should produce: the normalised lines, first
occurrences kept. -/
def secState (sec : List PyStr) : List PyStr :=
  sec.foldl (fun s l => addProp s (normProp l)) []

/-- A well-formed proposition line: no newline, no occurrence of either
delimiter, and a non-empty normalisation. -/
def goodLine (l : PyStr) : Bool :=
  decide ('\n' ∉ l) && decide (pyFind stateDelimiter l = none) &&
  decide (pyFind stateListDelimiter l = none) && decide (normProp l ≠ chars ("()"))

/-- A separator no proper suffix of which is one of its prefixes; for such a
separator an occurrence cannot straddle the boundary between a
separator-free prefix and the separator itself. -/
def unbordered (sep : PyStr) : Bool :=
  decide (sep ≠ []) &&
  (List.range sep.length).all (fun j => decide (j = 0) || !((sep.drop j).isPrefixOf sep))

/-! ### Membership facts for the set model -/

theorem mem_addProp {l : List PyStr} {p q : PyStr} :
    p ∈ addProp l q ↔ p ∈ l ∨ p = q := by
  unfold addProp
  split
  · next h => exact ⟨Or.inl, fun hpq => hpq.elim id (fun hq => hq ▸ h)⟩
  · simp

theorem mem_foldl_addProp :
    ∀ (props acc : List PyStr) (p : PyStr),
      p ∈ props.foldl addProp acc ↔ p ∈ acc ∨ p ∈ props := by
  intro props
  induction props with
  | nil => simp
  | cons q qs ih =>
    intro acc p
    simp only [List.foldl_cons, ih, mem_addProp, List.mem_cons]
    tauto

theorem mem_foldl_union :
    ∀ (L : List (List PyStr)) (acc : List PyStr) (p : PyStr),
      p ∈ L.foldl unionProps acc ↔ p ∈ acc ∨ ∃ s ∈ L, p ∈ s := by
  intro L
  induction L with
  | nil => simp
  | cons s ss ih =>
    intro acc p
    simp only [List.foldl_cons, ih, List.mem_cons]
    unfold unionProps
    rw [mem_foldl_addProp]
    constructor
    · rintro (⟨h | h⟩ | ⟨t, ht, hp⟩)
      · exact Or.inl h
      · exact Or.inr ⟨s, Or.inl rfl, h⟩
      · exact Or.inr ⟨t, Or.inr ht, hp⟩
    · rintro (h | ⟨t, (rfl | ht), hp⟩)
      · exact Or.inl (Or.inl h)
      · exact Or.inl (Or.inr hp)
      · exact Or.inr ⟨t, ht, hp⟩

theorem getPropSet_spec (states : List (List PyStr)) (h : states ≠ []) :
    ∃ props, getPropSet states = .ok props ∧
      ∀ p, p ∈ props ↔ ∃ s ∈ states, p ∈ s := by
  match states with
  | s0 :: rest =>
    refine ⟨(s0 :: rest).foldl unionProps s0, rfl, fun p => ?_⟩
    rw [mem_foldl_union]
    constructor
    · rintro (h0 | hex)
      · exact ⟨s0, by simp, h0⟩
      · exact hex
    · exact Or.inr

theorem addProp_ne_nil (s : List PyStr) (p : PyStr) : addProp s p ≠ [] := by
  unfold addProp
  split
  · next h => exact List.ne_nil_of_mem h
  · simp

theorem mem_foldl_addProp_norm :
    ∀ (sec : List PyStr) (acc : List PyStr) (p : PyStr),
      p ∈ sec.foldl (fun t l => addProp t (normProp l)) acc ↔
        p ∈ acc ∨ ∃ l ∈ sec, normProp l = p := by
  intro sec
  induction sec with
  | nil => simp
  | cons l ls ih =>
    intro acc p
    simp only [List.foldl_cons, ih, mem_addProp, List.mem_cons]
    constructor
    · rintro (⟨h | h⟩ | ⟨m, hm, he⟩)
      · exact Or.inl h
      · exact Or.inr ⟨l, Or.inl rfl, h.symm⟩
      · exact Or.inr ⟨m, Or.inr hm, he⟩
    · rintro (h | ⟨m, (rfl | hm), he⟩)
      · exact Or.inl (Or.inl h)
      · exact Or.inl (Or.inr he.symm)
      · exact Or.inr ⟨m, hm, he⟩

theorem mem_secState (sec : List PyStr) (p : PyStr) :
    p ∈ secState sec ↔ ∃ l ∈ sec, normProp l = p := by
  unfold secState
  rw [mem_foldl_addProp_norm]
  simp

theorem foldl_addProp_ne (sec : List PyStr) :
    ∀ s : List PyStr, s ≠ [] →
      sec.foldl (fun t l => addProp t (normProp l)) s ≠ [] := by
  induction sec with
  | nil => intro s h; simpa using h
  | cons l ls ih =>
    intro s _
    simp only [List.foldl_cons]
    exact ih _ (addProp_ne_nil s _)

theorem secState_ne_nil {sec : List PyStr} (h : sec ≠ []) : secState sec ≠ [] := by
  obtain ⟨l, ls, rfl⟩ := List.exists_cons_of_ne_nil h
  unfold secState
  simp only [List.foldl_cons]
  exact foldl_addProp_ne ls _ (addProp_ne_nil [] _)

/-! ### Prefix decomposition over an append -/

theorem prefix_append_left {p x y : PyStr} (h : p <+: x ++ y)
    (hl : p.length ≤ x.length) : p <+: x := by
  induction p generalizing x with
  | nil => exact List.nil_prefix
  | cons a ps ih =>
    cases x with
    | nil => simp at hl
    | cons b xs =>
      rw [List.cons_append, List.cons_prefix_cons] at h
      exact List.cons_prefix_cons.mpr
        ⟨h.1, ih h.2 (by simpa using hl)⟩

theorem prefix_append_split {p x y : PyStr} (h : p <+: x ++ y)
    (hl : x.length < p.length) :
    x = p.take x.length ∧ p.drop x.length <+: y := by
  induction x generalizing p with
  | nil => exact ⟨rfl, by simpa using h⟩
  | cons b xs ih =>
    cases p with
    | nil => simp at hl
    | cons a ps =>
      rw [List.cons_append, List.cons_prefix_cons] at h
      obtain ⟨rfl, h2⟩ := h
      obtain ⟨h3, h4⟩ := ih h2 (by simpa using hl)
      refine ⟨?_, ?_⟩
      · simp only [List.length_cons, List.take_succ_cons]
        exact congrArg (a :: ·) h3
      · simpa only [List.length_cons, List.drop_succ_cons] using h4

/-! ### Facts about pyFind -/

theorem pyFind_nil (sep : PyStr) : pyFind sep [] = none := rfl

theorem pyFind_cons (sep : PyStr) (c : Char) (rest : PyStr) :
    pyFind sep (c :: rest) =
      if sep.isPrefixOf (c :: rest) then some 0
      else (pyFind sep rest).map (fun n => n + 1) := rfl

theorem pyFind_le {sep s : PyStr} {i : Nat} (h : pyFind sep s = some i) :
    i + sep.length ≤ s.length := by
  induction s generalizing i with
  | nil => simp [pyFind] at h
  | cons c rest ih =>
    rw [pyFind_cons] at h
    split at h
    · next hp =>
      cases h
      have := List.IsPrefix.length_le (List.isPrefixOf_iff_prefix.mp hp)
      simpa using this
    · cases hfind : pyFind sep rest with
      | none => rw [hfind] at h; simp at h
      | some j =>
        rw [hfind] at h
        simp only [Option.map_some'] at h
        cases h
        have := ih hfind
        simp only [List.length_cons]
        omega

theorem pyFind_cons_inv {sep : PyStr} {c : Char} {rest : PyStr}
    (h : pyFind sep (c :: rest) = none) :
    ¬ (sep <+: c :: rest) ∧ pyFind sep rest = none := by
  rw [pyFind_cons] at h
  split at h
  · simp at h
  · next hp =>
    refine ⟨fun hpre => hp (List.isPrefixOf_iff_prefix.mpr hpre), ?_⟩
    cases hfind : pyFind sep rest with
    | none => rfl
    | some j => rw [hfind] at h; simp at h

theorem pyFind_cons_shift {sep : PyStr} {c : Char} {rest : PyStr}
    (hp : ¬ sep <+: c :: rest) :
    pyFind sep (c :: rest) = (pyFind sep rest).map (fun n => n + 1) := by
  rw [pyFind_cons, if_neg]
  exact fun hb => hp (List.isPrefixOf_iff_prefix.mp hb)

theorem pyFind_cons_none {sep : PyStr} {c : Char} {rest : PyStr}
    (hp : ¬ sep <+: c :: rest) (h : pyFind sep rest = none) :
    pyFind sep (c :: rest) = none := by
  rw [pyFind_cons_shift hp, h]
  rfl

theorem pyFind_sep_append (sep : PyStr) (hsep : sep ≠ []) (b : PyStr) :
    pyFind sep (sep ++ b) = some 0 := by
  obtain ⟨s, ss, rfl⟩ := List.exists_cons_of_ne_nil hsep
  rw [List.cons_append, pyFind_cons, if_pos]
  exact List.isPrefixOf_iff_prefix.mpr (by rw [← List.cons_append]; exact List.prefix_append _ _)

theorem pyFind_single_none {c : Char} {l : PyStr} (h : c ∉ l) : pyFind [c] l = none := by
  induction l with
  | nil => rfl
  | cons d rest ih =>
    simp only [List.mem_cons, not_or] at h
    apply pyFind_cons_none
    · intro hpre
      rw [List.cons_prefix_cons] at hpre
      exact h.1 hpre.1
    · exact ih h.2

theorem pyFind_append_nl (sep : PyStr) {x y : PyStr} (hsep : sep ≠ []) (hnl : '\n' ∉ sep)
    (hx : pyFind sep x = none) (hy : pyFind sep y = none) :
    pyFind sep (x ++ '\n' :: y) = none := by
  induction x with
  | nil =>
    simp only [List.nil_append]
    refine pyFind_cons_none ?_ hy
    intro hpre
    obtain ⟨s, ss, rfl⟩ := List.exists_cons_of_ne_nil hsep
    rw [List.cons_prefix_cons] at hpre
    have hs : s = '\n' := hpre.1
    subst hs
    exact hnl (List.mem_cons_self _ _)
  | cons c xs ih =>
    obtain ⟨hp, hx2⟩ := pyFind_cons_inv hx
    rw [List.cons_append]
    refine pyFind_cons_none ?_ (ih hx2)
    intro hpre
    rcases le_or_lt sep.length (c :: xs).length with hle | hlt
    · exact hp (prefix_append_left (by simpa using hpre) hle)
    · obtain ⟨_, h2⟩ := prefix_append_split (by simpa using hpre) hlt
      have hd : sep.drop (c :: xs).length ≠ [] := by
        intro e
        have := congrArg List.length e
        rw [List.length_drop] at this
        simp only [List.length_nil] at this
        omega
      obtain ⟨d, ds, hds⟩ := List.exists_cons_of_ne_nil hd
      rw [hds, List.cons_prefix_cons] at h2
      have hdn : d = '\n' := h2.1
      have hdm : d ∈ sep := List.drop_subset _ _ (hds ▸ List.mem_cons_self d ds)
      exact hnl (hdn ▸ hdm)

theorem pyFind_renderLines_append {sep z : PyStr} {sec : List PyStr}
    (hsep : sep ≠ []) (hnl : '\n' ∉ sep)
    (hlines : ∀ l ∈ sec, pyFind sep l = none) (hz : pyFind sep z = none) :
    pyFind sep (renderLines sec ++ z) = none := by
  induction sec with
  | nil => simpa [renderLines] using hz
  | cons l ls ih =>
    rw [renderLines]
    have h1 := pyFind_append_nl sep hsep hnl (hlines l (List.mem_cons_self _ _))
      (ih (fun m hm => hlines m (List.mem_cons_of_mem _ hm)))
    simpa [List.append_assoc] using h1

theorem pyFind_bodyOf {sep : PyStr} {sec : List PyStr}
    (hsep : sep ≠ []) (hnl : '\n' ∉ sep)
    (hlines : ∀ l ∈ sec, pyFind sep l = none) :
    pyFind sep (bodyOf sec) = none := by
  have h1 : pyFind sep (renderLines sec) = none := by
    simpa using pyFind_renderLines_append hsep hnl hlines (pyFind_nil sep)
  have h2 := pyFind_append_nl sep hsep hnl (pyFind_nil sep) h1
  simpa [bodyOf] using h2

theorem pyFind_renderSecs (sep : PyStr) {sections : List (List PyStr)}
    (hsep : sep ≠ []) (hnl : '\n' ∉ sep) (hst : pyFind sep stateDelimiter = none)
    (hlines : ∀ sec ∈ sections, ∀ l ∈ sec, pyFind sep l = none) :
    pyFind sep (renderSecs sections) = none := by
  induction sections with
  | nil => rfl
  | cons sec rest ih =>
    rw [renderSecs, bodyOf]
    have hy : pyFind sep (renderLines sec ++ renderSecs rest) = none :=
      pyFind_renderLines_append hsep hnl (hlines sec (List.mem_cons_self _ _))
        (ih (fun m hm => hlines m (List.mem_cons_of_mem _ hm)))
    have h2 := pyFind_append_nl sep hsep hnl hst hy
    simpa [List.append_assoc] using h2

/-! ### Facts about pySplit -/

theorem splitAux_congr {sep : PyStr} (hsep : sep ≠ []) :
    ∀ (f g : Nat) (s : PyStr), s.length ≤ f → s.length ≤ g →
      splitAux sep f s = splitAux sep g s := by
  intro f
  induction f with
  | zero =>
    intro g s hf _
    have hs : s = [] := List.eq_nil_of_length_eq_zero (Nat.le_zero.mp hf)
    subst hs
    cases g with
    | zero => rfl
    | succ g => simp [splitAux, pyFind_nil]
  | succ f ih =>
    intro g s hf hg
    cases g with
    | zero =>
      have hs : s = [] := List.eq_nil_of_length_eq_zero (Nat.le_zero.mp hg)
      subst hs
      simp [splitAux, pyFind_nil]
    | succ g =>
      cases hfind : pyFind sep s with
      | none => simp [splitAux, hfind]
      | some i =>
        have hle := pyFind_le hfind
        have hsl : 1 ≤ sep.length := by
          cases sep with
          | nil => exact absurd rfl hsep
          | cons a t => simp
        have hlen : (s.drop (i + sep.length)).length ≤ f := by
          rw [List.length_drop]; omega
        have hlen2 : (s.drop (i + sep.length)).length ≤ g := by
          rw [List.length_drop]; omega
        simp only [splitAux, hfind]
        rw [ih g _ hlen hlen2]

theorem pySplit_eq_single {sep s : PyStr} (h : pyFind sep s = none) :
    pySplit sep s = [s] := by
  unfold pySplit
  cases hl : s.length with
  | zero => simp [splitAux]
  | succ n => simp [splitAux, h]

theorem pySplit_eq_cons {sep s : PyStr} {i : Nat} (hsep : sep ≠ [])
    (h : pyFind sep s = some i) :
    pySplit sep s = s.take i :: pySplit sep (s.drop (i + sep.length)) := by
  have hle := pyFind_le h
  have hsl : 1 ≤ sep.length := by
    cases sep with
    | nil => exact absurd rfl hsep
    | cons a t => simp
  obtain ⟨n, hn⟩ : ∃ n, s.length = n + 1 := ⟨s.length - 1, by omega⟩
  unfold pySplit
  rw [hn]
  simp only [splitAux, h]
  congr 1
  apply splitAux_congr hsep
  · rw [List.length_drop]; omega
  · exact Nat.le_refl _

theorem pySplit_sep_append (sep : PyStr) (hsep : sep ≠ []) (b : PyStr) :
    pySplit sep (sep ++ b) = [] :: pySplit sep b := by
  rw [pySplit_eq_cons hsep (pyFind_sep_append sep hsep b)]
  simp [List.drop_left]

theorem unbordered_ne_nil {sep : PyStr} (h : unbordered sep = true) : sep ≠ [] := by
  unfold unbordered at h
  rw [Bool.and_eq_true] at h
  exact of_decide_eq_true h.1

theorem unbordered_no_border {sep : PyStr} (h : unbordered sep = true)
    (j : Nat) (h0 : 0 < j) (hj : j < sep.length) : ¬ sep.drop j <+: sep := by
  unfold unbordered at h
  rw [Bool.and_eq_true] at h
  have h2 := h.2
  rw [List.all_eq_true] at h2
  have h3 := h2 j (List.mem_range.mpr hj)
  rw [Bool.or_eq_true] at h3
  rcases h3 with h3 | h3
  · exact absurd (of_decide_eq_true h3) (Nat.pos_iff_ne_zero.mp h0)
  · intro hpre
    have hb := List.isPrefixOf_iff_prefix.mpr hpre
    simp [hb] at h3

theorem pyFind_append_sep {sep a : PyStr} (hu : unbordered sep = true)
    (ha : pyFind sep a = none) (b : PyStr) :
    pyFind sep (a ++ sep ++ b) = some a.length := by
  have hsep := unbordered_ne_nil hu
  induction a with
  | nil => simpa using pyFind_sep_append sep hsep b
  | cons c xs ih =>
    obtain ⟨hp, ha2⟩ := pyFind_cons_inv ha
    have hstep : ¬ sep <+: c :: (xs ++ sep ++ b) := by
      intro hpre
      rcases le_or_lt sep.length (c :: xs).length with hle | hlt
      · refine hp (prefix_append_left (x := c :: xs) (y := sep ++ b) ?_ hle)
        simpa [List.append_assoc] using hpre
      · have h2 := prefix_append_split (x := c :: xs) (y := sep ++ b)
          (by simpa [List.append_assoc] using hpre) hlt
        have h3 : sep.drop (c :: xs).length <+: sep := by
          refine prefix_append_left h2.2 ?_
          rw [List.length_drop]
          omega
        exact unbordered_no_border hu ((c :: xs).length) (by simp) hlt h3
    have hshape : (c :: xs) ++ sep ++ b = c :: (xs ++ sep ++ b) := by
      simp [List.append_assoc]
    rw [hshape, pyFind_cons_shift hstep, ih ha2]
    simp

theorem pySplit_append {sep a : PyStr} (hu : unbordered sep = true)
    (ha : pyFind sep a = none) (b : PyStr) :
    pySplit sep (a ++ sep ++ b) = a :: pySplit sep b := by
  have hsep := unbordered_ne_nil hu
  rw [pySplit_eq_cons hsep (pyFind_append_sep hu ha b)]
  congr 1
  · rw [List.append_assoc]
    exact List.take_left a (sep ++ b)
  · have hdrop : (a ++ sep ++ b).drop (a.length + sep.length) = b := by
      rw [← List.length_append]
      exact List.drop_left (a ++ sep) b
    rw [hdrop]

theorem pySplit_headD {sep : PyStr} (hsep : sep ≠ []) (s : PyStr) :
    (pySplit sep s).headD [] = untilFirst sep s := by
  unfold untilFirst
  cases h : pyFind sep s with
  | none => rw [pySplit_eq_single h]; rfl
  | some i => rw [pySplit_eq_cons hsep h]; rfl

/-! ### Normalisation facts -/

theorem goodLine_spec {l : PyStr} (h : goodLine l = true) :
    '\n' ∉ l ∧ pyFind stateDelimiter l = none ∧
      pyFind stateListDelimiter l = none ∧ normProp l ≠ chars ("()") := by
  unfold goodLine at h
  simp only [Bool.and_eq_true, decide_eq_true_eq] at h
  tauto

theorem mem_pyStrip {c : Char} {s : PyStr} (h : c ∈ pyStrip s) : c ∈ s := by
  unfold pyStrip at h
  rw [List.mem_reverse] at h
  have h2 := (List.dropWhile_sublist _).subset h
  rw [List.mem_reverse] at h2
  exact (List.dropWhile_sublist _).subset h2

theorem nl_replChar {a b : Char} {s : PyStr} (hb : b ≠ '\n')
    (h : '\n' ∈ replChar a b s) : '\n' ∈ s := by
  unfold replChar at h
  rw [List.mem_map] at h
  obtain ⟨d, hd, he⟩ := h
  by_cases hda : d = a
  · rw [if_pos hda] at he
    exact absurd he hb
  · rw [if_neg hda] at he
    exact he ▸ hd

theorem lowerChar_nl {c : Char} (h : lowerChar c = '\n') : c = '\n' := by
  unfold lowerChar at h
  cases h2 : lowerTable.lookup c with
  | none => rw [h2] at h; exact h
  | some d =>
    rw [h2] at h
    simp only [Option.getD_some] at h
    subst h
    obtain ⟨l1, l2, heq, _⟩ := List.lookup_eq_some_iff.mp h2
    have hmem : (c, '\n') ∈ lowerTable := by rw [heq]; simp
    have hall : ∀ p ∈ lowerTable, p.2 ≠ '\n' := by decide
    exact absurd rfl (hall (c, '\n') hmem)

theorem nl_asciiLower {s : PyStr} (h : '\n' ∈ asciiLower s) : '\n' ∈ s := by
  unfold asciiLower at h
  rw [List.mem_map] at h
  obtain ⟨d, hd, he⟩ := h
  rwa [lowerChar_nl he] at hd

theorem noNl_normCore {l : PyStr} (h : '\n' ∉ l) : '\n' ∉ normCore l := by
  intro hmem
  unfold normCore at hmem
  exact h (mem_pyStrip (nl_replChar (by decide)
    (nl_replChar (by decide) (nl_asciiLower (mem_pyStrip hmem)))))

theorem propMatch_normProp {l : PyStr} (h : '\n' ∉ l) :
    propMatch (normProp l) = true := by
  have hmid := noNl_normCore h
  unfold normProp propMatch
  simp only [List.cons_append]
  simp [List.getLast?_concat, List.dropLast_concat, hmid]

theorem addLine_empty (s : List PyStr) : addLine s [] = s := by
  unfold addLine
  rw [if_neg (by decide : ¬(normProp [] ≠ chars ("()")))]

theorem addLine_good {l : PyStr} (hg : goodLine l = true) (s : List PyStr) :
    addLine s l = addProp s (normProp l) := by
  obtain ⟨h1, _, _, h4⟩ := goodLine_spec hg
  unfold addLine
  rw [if_pos h4, if_pos (propMatch_normProp h1)]

theorem foldl_addLine_good :
    ∀ (sec : List PyStr) (s : List PyStr), (∀ l ∈ sec, goodLine l = true) →
      (sec ++ [[]]).foldl addLine s =
        sec.foldl (fun t l => addProp t (normProp l)) s := by
  intro sec
  induction sec with
  | nil =>
    intro s _
    simp only [List.nil_append, List.foldl_cons, List.foldl_nil]
    exact addLine_empty s
  | cons l ls ih =>
    intro s hg
    simp only [List.cons_append, List.foldl_cons]
    rw [addLine_good (hg l (List.mem_cons_self _ _)) s]
    exact ih _ (fun m hm => hg m (List.mem_cons_of_mem _ hm))

/-! ### Parsing a well-formed trace -/

theorem pySplit_renderLines {sec : List PyStr}
    (hlines : ∀ l ∈ sec, goodLine l = true) :
    pySplit (chars ("\n")) (renderLines sec) = sec ++ [[]] := by
  induction sec with
  | nil => simpa [renderLines] using pySplit_eq_single (pyFind_nil (chars ("\n")))
  | cons l ls ih =>
    have hg := goodLine_spec (hlines l (List.mem_cons_self _ _))
    have h1 : pyFind (chars ("\n")) l = none := pyFind_single_none hg.1
    rw [renderLines]
    have hshape : l ++ '\n' :: renderLines ls = l ++ chars ("\n") ++ renderLines ls := by
      simp [chars, List.append_assoc]
    rw [hshape, pySplit_append (by decide) h1 (renderLines ls)]
    rw [ih (fun m hm => hlines m (List.mem_cons_of_mem _ hm))]
    rfl

theorem getStateFromStr_bodyOf {sec : List PyStr}
    (hlines : ∀ l ∈ sec, goodLine l = true) :
    getStateFromStr (bodyOf sec) = secState sec := by
  unfold getStateFromStr
  have hsplit : pySplit (chars ("\n")) (bodyOf sec) = [] :: (sec ++ [[]]) := by
    unfold bodyOf
    have hshape : ('\n' : Char) :: renderLines sec = chars ("\n") ++ renderLines sec := rfl
    rw [hshape]
    have h0 := pySplit_sep_append (chars ("\n")) (by decide) (renderLines sec)
    rw [h0, pySplit_renderLines hlines]
  rw [hsplit]
  simp only [List.foldl_cons, addLine_empty]
  exact foldl_addLine_good sec [] hlines

theorem pySplit_state_secs :
    ∀ (sections : List (List PyStr)) (pre : PyStr),
      pyFind stateDelimiter pre = none →
      (∀ sec ∈ sections, ∀ l ∈ sec, goodLine l = true) →
      pySplit stateDelimiter (pre ++ renderSecs sections) =
        pre :: sections.map bodyOf := by
  intro sections
  induction sections with
  | nil =>
    intro pre hpre _
    rw [renderSecs, List.append_nil, pySplit_eq_single hpre]
    rfl
  | cons sec rest ih =>
    intro pre hpre hgood
    rw [renderSecs]
    have hb : pyFind stateDelimiter (bodyOf sec) = none :=
      pyFind_bodyOf (by decide) (by decide)
        (fun l hl => (goodLine_spec (hgood sec (List.mem_cons_self _ _) l hl)).2.1)
    have hshape :
        pre ++ (stateDelimiter ++ bodyOf sec ++ renderSecs rest) =
          pre ++ stateDelimiter ++ (bodyOf sec ++ renderSecs rest) := by
      simp [List.append_assoc]
    rw [hshape, pySplit_append (by decide) hpre (bodyOf sec ++ renderSecs rest)]
    rw [ih (bodyOf sec) hb (fun m hm => hgood m (List.mem_cons_of_mem _ hm))]
    simp

theorem mapFilter_secs :
    ∀ (sections : List (List PyStr)),
      (∀ sec ∈ sections, sec ≠ []) →
      (∀ sec ∈ sections, ∀ l ∈ sec, goodLine l = true) →
      ((sections.map bodyOf).map getStateFromStr).filter
          (fun s => decide (0 < s.length)) = sections.map secState := by
  intro sections
  induction sections with
  | nil => intro _ _; rfl
  | cons sec rest ih =>
    intro hne hgood
    simp only [List.map_cons]
    rw [getStateFromStr_bodyOf (hgood sec (List.mem_cons_self _ _))]
    rw [List.filter_cons]
    have hkeep : decide (0 < (secState sec).length) = true := by
      rw [decide_eq_true_eq]
      exact List.length_pos.mpr (secState_ne_nil (hne sec (List.mem_cons_self _ _)))
    rw [hkeep]
    simp only [if_true]
    rw [ih (fun m hm => hne m (List.mem_cons_of_mem _ hm))
      (fun m hm => hgood m (List.mem_cons_of_mem _ hm))]

theorem parseFFOutputFile_render {sections : List (List PyStr)}
    (hne : ∀ sec ∈ sections, sec ≠ [])
    (hgood : ∀ sec ∈ sections, ∀ l ∈ sec, goodLine l = true) :
    parseFFOutputFile (renderTrace sections) = .ok (sections.map secState) := by
  unfold parseFFOutputFile renderTrace
  have h1 := pySplit_sep_append stateListDelimiter (by decide)
    ('\n' :: renderSecs sections)
  have h2 : pyFind stateListDelimiter ('\n' :: renderSecs sections) = none := by
    have hy := pyFind_renderSecs stateListDelimiter (by decide) (by decide)
      (by decide)
      (fun sec hs l hl => (goodLine_spec (hgood sec hs l hl)).2.2.1)
    simpa using
      pyFind_append_nl stateListDelimiter (by decide) (by decide)
        (pyFind_nil stateListDelimiter) hy
  rw [h1, pySplit_eq_single h2]
  simp only [List.getElem?_cons_succ, List.getElem?_cons_zero]
  have hps : parseStates ('\n' :: renderSecs sections) = sections.map secState := by
    unfold parseStates
    have hshape : ('\n' : Char) :: renderSecs sections = ['\n'] ++ renderSecs sections := rfl
    rw [hshape, pySplit_state_secs sections ['\n'] (by decide) hgood]
    simp only [List.map_cons]
    have h0 : getStateFromStr ['\n'] = [] := by decide
    rw [h0, List.filter_cons]
    simp only [List.length_nil, Nat.lt_irrefl, decide_False, if_false]
    exact mapFilter_secs sections hne hgood
  rw [hps]

/-! ### The patcher pipeline -/

theorem patchWithFFOutput_steps {content : PyStr} {states : List (List PyStr)}
    {props : List PyStr} (idx : Int)
    (hp : parseFFOutputFile content = .ok states)
    (h1 : getPropSet states = .ok props) :
    patchWithFFOutput content idx =
      (match getStateByIndex states idx with
        | .found deltaState => ([MgrOp.mergeDelta (Delta.cwa deltaState props)], none)
        | .sentinel => ([], some PyErr.attributeError)
        | .crash => ([], some PyErr.indexError)) := by
  have hstep : patchWithFFOutput content idx =
      (match getPropSet states with
        | .error e => ([], some e)
        | .ok propSet =>
          match getStateByIndex states idx with
          | .found deltaState => ([MgrOp.mergeDelta (Delta.cwa deltaState propSet)], none)
          | .sentinel => ([], some PyErr.attributeError)
          | .crash => ([], some PyErr.indexError)) := by
    unfold patchWithFFOutput
    rw [hp]
  rw [hstep, h1]

theorem patchWithFFOutput_spec {content : PyStr} {states : List (List PyStr)}
    {s : List PyStr} (idx : Int)
    (hp : parseFFOutputFile content = .ok states) (hne : states ≠ [])
    (hs : getStateByIndex states idx = Lookup.found s) :
    ∃ props, getPropSet states = .ok props ∧
      (∀ p, p ∈ props ↔ ∃ t ∈ states, p ∈ t) ∧
      patchWithFFOutput content idx =
        ([.mergeDelta (.cwa s props)], none) := by
  obtain ⟨props, h1, h2⟩ := getPropSet_spec states hne
  refine ⟨props, h1, h2, ?_⟩
  rw [patchWithFFOutput_steps idx hp h1, hs]

theorem patchWithFFOutput_sentinel {content : PyStr} {states : List (List PyStr)}
    (idx : Int) (hp : parseFFOutputFile content = .ok states) (hne : states ≠ [])
    (hs : getStateByIndex states idx = Lookup.sentinel) :
    patchWithFFOutput content idx = ([], some PyErr.attributeError) := by
  obtain ⟨props, h1, _⟩ := getPropSet_spec states hne
  rw [patchWithFFOutput_steps idx hp h1, hs]

/-! ### Claim theorems -/

/-- C1: the claim says getStateByIndex returns the snapshot for every index
with 0 ≤ index ≤ len(trace)-1.  The code's guard `len(stateList) > index + 1`
excludes the last valid index: on the spec example's two-state trace, index 1
is valid but the code reports an out-of-range error and returns the
sentinel -1. -/
theorem c1_getStateByIndex_last_index :
    getStateByIndex [[chars ("(at a)"), chars ("(on b c)")], [chars ("(at a)")]] 1 =
      Lookup.sentinel := by decide

/-- C2 (counterexample): the claim says parseTrace splits every source --
file or literal text -- on the state-list delimiter and fails with a
MalformedTraceError domain error when it is absent.  On literal text the code
performs no delimiter split at all (the delimiter itself is parsed into two
spurious states), and on a bound file without the delimiter the code raises
an uncaught IndexError, while the claim's reading demands a
MalformedTraceError. -/
theorem c2_counterexample :
    parseFFOutputStr (chars ("*** States ***\nState\n(x y)\n")) =
        .ok [[chars ("(***)")], [chars ("(s ***)")], [chars ("(x y)")]] ∧
      specParseTrace (chars ("*** States ***\nState\n(x y)\n")) =
        .ok [[chars ("(x y)")]] ∧
      parseFFOutputStr (chars ("*** States ***\nState\n(x y)\n")) ≠
        specParseTrace (chars ("*** States ***\nState\n(x y)\n")) ∧
      parseFFOutputFile (chars ("no state list here")) = .error .indexError := by
  refine ⟨rfl, rfl, ?_, rfl⟩
  intro h
  have h1 : parseFFOutputStr (chars ("*** States ***\nState\n(x y)\n")) =
      .ok [[chars ("(***)")], [chars ("(s ***)")], [chars ("(x y)")]] := rfl
  have h2 : specParseTrace (chars ("*** States ***\nState\n(x y)\n")) =
      .ok [[chars ("(x y)")]] := rfl
  rw [h1, h2] at h
  exact absurd (Except.ok.inj h) (by decide)

/-- C2 (amended): in file mode the parser splits the file text on the
state-list delimiter and parses the piece after the first occurrence, raising
an uncaught IndexError when the delimiter is absent; in literal-text mode the
text is parsed whole, with no delimiter split. -/
theorem c2_amended_source_split :
    (∀ post, pyFind stateListDelimiter post = none →
      parseFFOutputFile (stateListDelimiter ++ post) = .ok (parseStates post)) ∧
    (∀ s, pyFind stateListDelimiter s = none →
      parseFFOutputFile s = .error .indexError) ∧
    (∀ t, t ≠ [] → parseFFOutputStr t = .ok (parseStates t)) := by
  refine ⟨?_, ?_, ?_⟩
  · intro post hpost
    unfold parseFFOutputFile
    rw [pySplit_sep_append stateListDelimiter (by decide) post, pySplit_eq_single hpost]
    rfl
  · intro s hs
    unfold parseFFOutputFile
    rw [pySplit_eq_single hs]
    rfl
  · intro t ht
    unfold parseFFOutputStr
    rw [if_neg ht]

/-- Witness for C2 (amended) at a concrete well-formed file. -/
theorem c2_witness :
    pyFind stateListDelimiter (chars ("\nState\n(p q)\n")) = none ∧
    parseFFOutputFile (chars ("*** States ***\nState\n(p q)\n")) =
      .ok [[chars ("(p q)")]] := by
  constructor
  · rfl
  · have h := c2_amended_source_split.1 (chars ("\nState\n(p q)\n")) rfl
    have hshape : chars ("*** States ***\nState\n(p q)\n") =
        stateListDelimiter ++ chars ("\nState\n(p q)\n") := by decide
    rw [hshape, h]
    have hps : parseStates (chars ("\nState\n(p q)\n")) = [[chars ("(p q)")]] := rfl
    rw [hps]

/-- C3 (counterexample): the claim asserts the pipeline ends in the InitState
merge for every trace source and state index.  On a two-state trace, index 1
is the last valid index, yet the off-by-one guard makes getStateByIndex
return the sentinel -1 and the patcher then calls makeCWAExplicit on that
integer: an uncaught AttributeError, and no merge is ever performed. -/
theorem c3_counterexample_valid_index :
    parseFFOutputFile (chars ("*** States ***\nState\n(a)\nState\n(b)\n")) =
        .ok [[chars ("(a)")], [chars ("(b)")]] ∧
    patchWithFFOutput (chars ("*** States ***\nState\n(a)\nState\n(b)\n")) 1 =
      ([], some PyErr.attributeError) := ⟨rfl, rfl⟩

/-- C3 (amended): for every trace source that parses to a non-empty trace and
every state index whose fetch succeeds, patchWithFFOutput parses the trace,
computes the global proposition set as the union over all states of the whole
trace, fetches the state at the given index, invokes CWA completion on it
with that full universe (not just the chosen state's propositions), and
merges exactly that completed delta into InitState through the external
manager; for an index whose fetch reports the sentinel, CWA completion on
the integer -1 raises an uncaught AttributeError and nothing is merged. -/
theorem c3_amended_patchFromTrace_pipeline (content : PyStr) (idx : Int)
    (states : List (List PyStr)) (s : List PyStr)
    (hp : parseFFOutputFile content = .ok states) (hne : states ≠ [])
    (hs : getStateByIndex states idx = Lookup.found s) :
    ∃ props, getPropSet states = .ok props ∧
      (∀ p, p ∈ props ↔ ∃ t ∈ states, p ∈ t) ∧
      patchWithFFOutput content idx =
        ([.mergeDelta (.cwa s props)], none) :=
  patchWithFFOutput_spec idx hp hne hs

/-- Witness for C3 (amended) at a concrete two-state trace and index 0. -/
theorem c3_witness :
    parseFFOutputFile (chars ("*** States ***\nState\n(a)\nState\n(b)\n")) =
        .ok [[chars ("(a)")], [chars ("(b)")]] ∧
    patchWithFFOutput (chars ("*** States ***\nState\n(a)\nState\n(b)\n")) 0 =
      ([MgrOp.mergeDelta (Delta.cwa [chars ("(a)")]
        [chars ("(a)"), chars ("(b)")])], none) := by
  have hp : parseFFOutputFile (chars ("*** States ***\nState\n(a)\nState\n(b)\n")) =
      .ok [[chars ("(a)")], [chars ("(b)")]] := rfl
  obtain ⟨props, h1, _, h3⟩ :=
    c3_amended_patchFromTrace_pipeline
      (chars ("*** States ***\nState\n(a)\nState\n(b)\n")) 0
      [[chars ("(a)")], [chars ("(b)")]] [chars ("(a)")] hp (by decide) rfl
  have hprops : props = [chars ("(a)"), chars ("(b)")] := by
    have h4 : getPropSet [[chars ("(a)")], [chars ("(b)")]] =
        .ok [chars ("(a)"), chars ("(b)")] := rfl
    rw [h1] at h4
    exact Except.ok.inj h4
  subst hprops
  exact ⟨hp, h3⟩

/-- C4: the claim says a line such as "not-a-fact" that fails the
single-parenthesized-token shape is reported and excluded from the state.
The code wraps every line in parentheses before matching `\(.*\)\Z`, so the
wrapped line always matches and "not-a-fact" is added to the state as
"(not-a-fact)"; the rejection branch is unreachable. -/
theorem c4_malformed_line_added :
    getStateFromStr (chars ("not-a-fact")) = [chars ("(not-a-fact)")] := by decide

/-- C5: for every well-formed trace text with k state sections, each a
non-empty list of well-formed proposition lines, the file-mode parse yields
exactly k states, and the state of each section holds exactly the normalised,
deduplicated propositions of that section's lines. -/
theorem c5_parse_wellformed_trace (sections : List (List PyStr))
    (hne : ∀ sec ∈ sections, sec ≠ [])
    (hgood : ∀ sec ∈ sections, ∀ l ∈ sec, goodLine l = true) :
    parseFFOutputFile (renderTrace sections) = .ok (sections.map secState) ∧
    (sections.map secState).length = sections.length ∧
    ∀ sec ∈ sections, ∀ p, p ∈ secState sec ↔ ∃ l ∈ sec, normProp l = p := by
  refine ⟨parseFFOutputFile_render hne hgood, List.length_map _ _, ?_⟩
  intro sec _ p
  exact mem_secState sec p

/-- Witness for C5 at the spec's example text, which parses to the two claimed
states. -/
theorem c5_witness :
    goodLine (chars ("(at a)")) = true ∧
    parseFFOutputFile (chars ("*** States ***\nState\n(at a)\n(on b c)\nState\n(at a)\n")) =
      .ok [[chars ("(at a)"), chars ("(on b c)")], [chars ("(at a)")]] := by
  constructor
  · decide
  · have h := (c5_parse_wellformed_trace
      [[chars ("(at a)"), chars ("(on b c)")], [chars ("(at a)")]]
      (by decide) (by decide)).1
    have hshape : renderTrace [[chars ("(at a)"), chars ("(on b c)")], [chars ("(at a)")]] =
        chars ("*** States ***\nState\n(at a)\n(on b c)\nState\n(at a)\n") := by decide
    have hsec : [[chars ("(at a)"), chars ("(on b c)")], [chars ("(at a)")]].map secState =
        [[chars ("(at a)"), chars ("(on b c)")], [chars ("(at a)")]] := by decide
    rw [hshape, hsec] at h
    exact h

/-- C6 (counterexample): the claim says getPropSet returns the empty set on an
empty trace rather than failing; the code starts from `stateList[0]` and
raises an uncaught IndexError on the empty state list. -/
theorem c6_counterexample_empty_trace :
    getPropSet [] = .error .indexError := rfl

/-- C6 (amended): for every non-empty trace, getPropSet returns exactly the
union, over all states in the trace, of each state's proposition set (hence
for a single-state trace, that state's own set); on the empty trace it raises
an uncaught IndexError instead of returning the empty set. -/
theorem c6_amended_union (states : List (List PyStr)) (h : states ≠ []) :
    ∃ props, getPropSet states = .ok props ∧
      ∀ p, p ∈ props ↔ ∃ s ∈ states, p ∈ s :=
  getPropSet_spec states h

/-- Witness for C6 (amended) at a concrete two-state trace. -/
theorem c6_witness :
    getPropSet [[chars ("(a)")], [chars ("(b)")]] =
        .ok [chars ("(a)"), chars ("(b)")] ∧
      chars ("(a)") ∈ [chars ("(a)"), chars ("(b)")] := by
  obtain ⟨props, h1, h2⟩ := c6_amended_union [[chars ("(a)")], [chars ("(b)")]] (by decide)
  have hprops : props = [chars ("(a)"), chars ("(b)")] := by
    have h4 : getPropSet [[chars ("(a)")], [chars ("(b)")]] =
        .ok [chars ("(a)"), chars ("(b)")] := rfl
    rw [h1] at h4
    exact Except.ok.inj h4
  subst hprops
  exact ⟨h1, (h2 (chars ("(a)"))).mpr ⟨[chars ("(a)")], by decide, by decide⟩⟩

/-- C7 (counterexample): the claim asserts every invocation performs exactly
rollback, trace-derived merge, extra-facts merge.  For index 1 on a two-state
trace (the last valid index, which the off-by-one guard rejects) the
invocation performs only the rollback and then crashes with an uncaught
AttributeError on the integer sentinel, before either merge. -/
theorem c7_counterexample_crash_after_rollback :
    parseFFOutputFile (chars ("*** States ***\nState\n(a)\nState\n(b)\n")) =
        .ok [[chars ("(a)")], [chars ("(b)")]] ∧
    patchStateNumWithProps 1 (chars ("*** States ***\nState\n(a)\nState\n(b)\n"))
        [chars ("(c)")] =
      ([MgrOp.rollbackTo 0], some PyErr.attributeError) := ⟨rfl, rfl⟩

/-- C7 (amended): every invocation of patchStateNumWithProps first rolls
InitState back to checkpoint 0.  When the trace parse succeeds and the state
fetch returns a state, it then performs exactly the merge of the
trace-derived CWA-completed delta followed by the merge of the extra facts,
in that order; when the fetch reports the sentinel, only the rollback is
performed and the pipeline stops with an uncaught AttributeError before any
merge.  In every case the extra-facts merge never reaches InitState before
the trace-derived merge. -/
theorem c7_amended_rollback_order :
    (∀ (idx : Int) (content : PyStr) (facts : List PyStr)
        (states : List (List PyStr)) (s : List PyStr),
      parseFFOutputFile content = .ok states → states ≠ [] →
      getStateByIndex states idx = Lookup.found s →
      ∃ props, getPropSet states = .ok props ∧
        patchStateNumWithProps idx content facts =
          ([MgrOp.rollbackTo 0,
            MgrOp.mergeDelta (Delta.cwa s props),
            MgrOp.mergeDelta (Delta.raw (facts.foldl addProp []))], none)) ∧
    (∀ (idx : Int) (content : PyStr) (facts : List PyStr)
        (states : List (List PyStr)),
      parseFFOutputFile content = .ok states → states ≠ [] →
      getStateByIndex states idx = Lookup.sentinel →
      patchStateNumWithProps idx content facts =
        ([MgrOp.rollbackTo 0], some PyErr.attributeError)) := by
  constructor
  · intro idx content facts states s hp hne hs
    obtain ⟨props, h1, _, h3⟩ := patchWithFFOutput_spec idx hp hne hs
    refine ⟨props, h1, ?_⟩
    unfold patchStateNumWithProps
    rw [h3]
    rfl
  · intro idx content facts states hp hne hs
    have h3 := patchWithFFOutput_sentinel idx hp hne hs
    unfold patchStateNumWithProps
    rw [h3]

/-- Witness for C7 (amended) at a concrete trace, index 0 and one extra
fact. -/
theorem c7_witness :
    parseFFOutputFile (chars ("*** States ***\nState\n(a)\nState\n(b)\n")) =
        .ok [[chars ("(a)")], [chars ("(b)")]] ∧
    patchStateNumWithProps 0 (chars ("*** States ***\nState\n(a)\nState\n(b)\n"))
        [chars ("(c)")] =
      ([MgrOp.rollbackTo 0,
        MgrOp.mergeDelta (Delta.cwa [chars ("(a)")] [chars ("(a)"), chars ("(b)")]),
        MgrOp.mergeDelta (Delta.raw [chars ("(c)")])], none) := by
  have hp : parseFFOutputFile (chars ("*** States ***\nState\n(a)\nState\n(b)\n")) =
      .ok [[chars ("(a)")], [chars ("(b)")]] := rfl
  obtain ⟨props, h1, h3⟩ :=
    c7_amended_rollback_order.1 0 (chars ("*** States ***\nState\n(a)\nState\n(b)\n"))
      [chars ("(c)")] [[chars ("(a)")], [chars ("(b)")]] [chars ("(a)")] hp (by decide) rfl
  have hprops : props = [chars ("(a)"), chars ("(b)")] := by
    have h4 : getPropSet [[chars ("(a)")], [chars ("(b)")]] =
        .ok [chars ("(a)"), chars ("(b)")] := rfl
    rw [h1] at h4
    exact Except.ok.inj h4
  subst hprops
  have hraw : ([chars ("(c)")].foldl addProp []) = [chars ("(c)")] := rfl
  rw [hraw] at h3
  exact ⟨hp, h3⟩

/-- C8: patchWithNewInterpretation first purges every fact whose head symbol
equals the given symbol and then adds exactly the given facts; a fact is in
the resulting InitState exactly when it survived the purge or is one of the
new facts, so facts headed by other symbols are unaffected. -/
theorem c8_replacement_semantics (st : List PyStr) (sym : PyStr)
    (facts : List PyStr) (f : PyStr) :
    f ∈ runNewInterpretation st sym facts ↔
      (f ∈ st ∧ headSymbol f ≠ sym) ∨ f ∈ facts := by
  unfold runNewInterpretation patchWithNewInterpretation patchWithProps
  simp only [List.foldl_cons, List.foldl_nil]
  show f ∈ mergeFacts (purgeFactsWithSymbol st sym) (facts.foldl addProp []) ↔
    (f ∈ st ∧ headSymbol f ≠ sym) ∨ f ∈ facts
  unfold mergeFacts purgeFactsWithSymbol
  rw [mem_foldl_addProp, mem_foldl_addProp, List.mem_filter]
  simp only [decide_eq_true_eq, List.not_mem_nil, false_or]

/-- C9 (counterexample): the claim says extractPlanSteps fails with a reported
PlanNotFoundError -- not an unhandled crash -- when the marker is absent; the
code instead raises an uncaught IndexError from the `[1]` access on the
split. -/
theorem c9_counterexample :
    getFFPlan (chars ("ff: no plan here")) = .error .indexError ∧
    specGetFFPlan (chars ("ff: no plan here")) = .error .planNotFound ∧
    getFFPlan (chars ("ff: no plan here")) ≠ specGetFFPlan (chars ("ff: no plan here")) := by
  refine ⟨rfl, rfl, ?_⟩
  intro h
  have h1 : getFFPlan (chars ("ff: no plan here")) = .error .indexError := rfl
  have h2 : specGetFFPlan (chars ("ff: no plan here")) = .error .planNotFound := rfl
  rw [h1, h2] at h
  exact absurd (Except.error.inj h) (by decide)

/-- C9 (amended): when the "found legal plan as follows" marker is present,
getFFPlan yields the text between the marker and the next "time" marker with
every occurrence of "step" removed; when the marker is absent it raises an
uncaught IndexError rather than a reported PlanNotFoundError. -/
theorem c9_amended_plan_extraction :
    (∀ body, pyFind ffPlanMarker body = none →
      getFFPlan (ffPlanMarker ++ body) =
        .ok (pyReplace (chars ("step")) [] (untilFirst (chars ("time")) body))) ∧
    (∀ s, pyFind ffPlanMarker s = none → getFFPlan s = .error .indexError) := by
  constructor
  · intro body hbody
    unfold getFFPlan
    rw [pySplit_sep_append ffPlanMarker (by decide) body, pySplit_eq_single hbody]
    simp only [List.getElem?_cons_succ, List.getElem?_cons_zero]
    rw [pySplit_headD (by decide) body]
  · intro s hs
    unfold getFFPlan
    rw [pySplit_eq_single hs]
    rfl

/-- Witness for C9 (amended) at a concrete solution text. -/
theorem c9_witness :
    pyFind ffPlanMarker (chars ("\nstep 0: pick a\ntime 0.1")) = none ∧
    getFFPlan (chars ("found legal plan as follows\nstep 0: pick a\ntime 0.1")) =
      .ok (chars ("\n 0: pick a\n")) := by
  constructor
  · rfl
  · have h := c9_amended_plan_extraction.1 (chars ("\nstep 0: pick a\ntime 0.1")) rfl
    have hshape : chars ("found legal plan as follows\nstep 0: pick a\ntime 0.1") =
        ffPlanMarker ++ chars ("\nstep 0: pick a\ntime 0.1") := by decide
    rw [hshape, h]
    rfl

/-- C10 (counterexample): the claim says that whenever the requested index is
out of range, getStateByIndex returns the sentinel -1 instead of raising.
For the out-of-range index -1 on a two-state trace the guard
`len > index + 1` passes and the Python list access wraps around, so a state
is returned successfully -- neither the sentinel nor an error. -/
theorem c10_counterexample_negative_index :
    getStateByIndex [[chars ("(a)")], [chars ("(b)")]] (-1) =
      Lookup.found [chars ("(b)")] := by decide

/-- C10 (amended): for every index with index ≥ len(trace) - 1 (in particular
every too-large index), getStateByIndex returns the sentinel -1 instead of
raising, and patchWithFFOutput performs no check on the returned value: it
proceeds to invoke CWA completion on the integer sentinel, which raises an
uncaught AttributeError before the InitState merge is ever reached, so the
out-of-range condition is surfaced only as that accidental exception, never
as an explicit error of the patcher. -/
theorem c10_amended_sentinel_crash (content : PyStr) (idx : Int)
    (states : List (List PyStr)) (hp : parseFFOutputFile content = .ok states)
    (hne : states ≠ []) (hout : (states.length : Int) ≤ idx + 1) :
    getStateByIndex states idx = Lookup.sentinel ∧
    patchWithFFOutput content idx = ([], some PyErr.attributeError) := by
  have hsent : getStateByIndex states idx = Lookup.sentinel := by
    unfold getStateByIndex
    rw [if_neg (not_lt.mpr hout)]
  exact ⟨hsent, patchWithFFOutput_sentinel idx hp hne hsent⟩

/-- Witness for C10 (amended) at a concrete two-state trace and index 5. -/
theorem c10_witness :
    getStateByIndex [[chars ("(a)")], [chars ("(b)")]] 5 = Lookup.sentinel ∧
    patchWithFFOutput (chars ("*** States ***\nState\n(a)\nState\n(b)\n")) 5 =
      ([], some PyErr.attributeError) :=
  c10_amended_sentinel_crash (chars ("*** States ***\nState\n(a)\nState\n(b)\n")) 5
    [[chars ("(a)")], [chars ("(b)")]] rfl (by decide) (by decide)
